import Mathlib

/-!
Shallow embedding of the p2p-storage node (Go) for specification checking.

Each definition mirrors one function or data structure of the source:
  * crypto (unnamed/part_000): `EncryptStream`, `DecryptStream`, chunked
    AES-CTR processing; the CTR keystream produced by `cipher.NewCTR` for a
    given key and IV is a pure function and is passed as a parameter `ks`.
  * storage/store: `hashToPath` with Go string-slicing panic semantics,
    `Store`, `Load`, `Exists`, `Delete`, `List` over a file-map model of the
    directory tree (the create-temp-then-rename sequence of `Store.Store`
    collapses to one atomic map insert, its net observable effect).
  * protocol/message: the five payload schemas, their encoding/json
    marshalling (including base64 of byte slices, implemented concretely)
    and unmarshalling with Go's missing-field-defaults semantics.
  * network/peer, network/transport: `Peer.Close` with Go channel-close
    semantics, `Transport.Broadcast`.
  * node: handshake key adoption, `handleDataRequest` chunking,
    `handleDataTransfer` / `finalizeWatchTransfer` / `finalizeDownload`
    over an explicit node state.

Bytes are `Nat` (with range side conditions where byte width matters);
nil-able Go slices are `Option (List _)` with `none` for `nil`.
-/

namespace P2P

/-! ### Association-list helpers (Go maps, observed only through lookup) -/

/-- Lookup in an association list, first match. -/
def lookupA {α β : Type} [DecidableEq α] : List (α × β) → α → Option β
  | [], _ => none
  | (k, v) :: rest, key => if k = key then some v else lookupA rest key

/-- Remove every binding of a key. -/
def eraseA {α β : Type} [DecidableEq α] (l : List (α × β)) (k : α) : List (α × β) :=
  l.filter (fun e => decide (e.1 ≠ k))

/-- Insert or overwrite a binding (Go map assignment). -/
def insertA {α β : Type} [DecidableEq α] (l : List (α × β)) (k : α) (v : β) : List (α × β) :=
  (k, v) :: eraseA l k

/-! ### Crypto (src/unnamed/part_000, package crypto)

`KeySize`, `IVSize`, `ChunkSize` are the source constants.  The AES-CTR
keystream produced by `cipher.NewCTR(block, iv)` is a deterministic pure
function of the key and the IV; it is abstracted as a parameter
`ks : key → iv → position → byte`.  `XORKeyStream` keeps an internal
offset across calls, so the chunked loop XORs the data against successive
keystream positions. -/

def KeySize : Nat := 32
def IVSize : Nat := 16
def ChunkSize : Nat := 1024 * 64

/-- XOR a byte list against the keystream starting at position `pos`
(the effect of one `stream.XORKeyStream` call at that stream offset). -/
def xorBytes (ks : Nat → Nat) : Nat → List Nat → List Nat
  | _, [] => []
  | pos, b :: rest => (b ^^^ ks pos) :: xorBytes ks (pos + 1) rest

/-- The read-encrypt-write loop of `EncryptStream`/`DecryptStream`: process
the data in `ChunkSize` pieces, carrying the keystream offset; `Read`
returns `(0, io.EOF)` on an empty source, breaking the loop. -/
def ctrProcess (ks : Nat → Nat) (pos : Nat) (data : List Nat) : List Nat :=
  if h : data = [] then []
  else
    xorBytes ks pos (data.take ChunkSize) ++
      ctrProcess ks (pos + (data.take ChunkSize).length) (data.drop ChunkSize)
termination_by data.length
decreasing_by
  have hc : ChunkSize = 65536 := rfl
  have hl : 0 < data.length := List.length_pos.mpr h
  simp only [List.length_drop]
  omega

inductive CryptoErr where
  | invalidKeySize (got : Nat)
  | truncatedInput
  deriving DecidableEq

/-- Go `crypto.EncryptStream(key, r, w)`: reject keys of the wrong size,
write the fresh IV (here a parameter, the value returned by `GenerateIV`),
then stream-encrypt the plaintext in 64 KiB chunks. -/
def EncryptStream (ks : List Nat → List Nat → Nat → Nat) (key iv plaintext : List Nat) :
    Except CryptoErr (List Nat) :=
  if key.length = KeySize then
    Except.ok (iv ++ ctrProcess (ks key iv) 0 plaintext)
  else Except.error (.invalidKeySize key.length)

/-- Go `crypto.DecryptStream(key, r, w)`: reject keys of the wrong size,
read exactly `IVSize` bytes of IV (`io.ReadFull`, erroring when fewer are
available), then stream-decrypt the remainder in 64 KiB chunks. -/
def DecryptStream (ks : List Nat → List Nat → Nat → Nat) (key input : List Nat) :
    Except CryptoErr (List Nat) :=
  if key.length = KeySize then
    if input.length < IVSize then Except.error .truncatedInput
    else Except.ok (ctrProcess (ks key (input.take IVSize)) 0 (input.drop IVSize))
  else Except.error (.invalidKeySize key.length)

/-! ### Storage (src/internal/storage, package storage)

The directory tree under the store's base directory is modelled as a map
from paths (lists of path components, each a `List Char`) to file
contents.  `hashToPath` keeps Go's string-slicing semantics: a slice
index past the end of the string is a runtime panic. -/

inductive GoPanic where
  | sliceOutOfRange
  | closeOfClosedChannel
  deriving DecidableEq

/-- Go slice expression `s[lo:hi]`; panics when the bounds do not satisfy
`lo <= hi <= len(s)`. -/
def goSlice (s : List Char) (lo hi : Nat) : Except GoPanic (List Char) :=
  if lo ≤ hi ∧ hi ≤ s.length then Except.ok ((s.drop lo).take (hi - lo))
  else Except.error .sliceOutOfRange

/-- Go slice expression `s[lo:]`; panics when `lo > len(s)`. -/
def goSliceFrom (s : List Char) (lo : Nat) : Except GoPanic (List Char) :=
  if lo ≤ s.length then Except.ok (s.drop lo) else Except.error .sliceOutOfRange

/-- One store: the base directory path and the files below it
(`temp/` files included, with path component "temp"). -/
structure StoreSt where
  baseDir : List (List Char)
  files : List (List (List Char) × List Nat)
  deriving DecidableEq

def tempDirName : List Char := ['t', 'e', 'm', 'p']

/-- The store's temp directory `<base>/temp`. -/
def tempDirOf (s : StoreSt) : List (List Char) := s.baseDir ++ [tempDirName]

/-- Go `Store.hashToPath`: `filepath.Join(baseDir, h[0:2], h[2:4], h[4:])`,
with the slicing panics of the source. -/
def hashToPath (s : StoreSt) (h : List Char) : Except GoPanic (List (List Char)) := do
  let a ← goSlice h 0 2
  let b ← goSlice h 2 4
  let c ← goSliceFrom h 4
  pure (s.baseDir ++ [a, b, c])

/-- Go `Store.Store(contentHash, r)`: copy into a fresh temp file, then
rename it onto `hashToPath contentHash` (the temp-file write plus rename
collapse to one atomic insert; the deferred remove erases the temp file on
every path). -/
def storeStore (s : StoreSt) (h : List Char) (content : List Nat) : Except GoPanic StoreSt :=
  (hashToPath s h).map (fun p => { s with files := insertA s.files p content })

/-- Go `Store.Load(contentHash)`: open the file at `hashToPath`; `none`
models the `NotFound` open error. -/
def storeLoad (s : StoreSt) (h : List Char) : Except GoPanic (Option (List Nat)) :=
  (hashToPath s h).map (fun p => lookupA s.files p)

/-- Go `Store.Exists(contentHash)`: `os.Stat` at `hashToPath` succeeds. -/
def storeExists (s : StoreSt) (h : List Char) : Except GoPanic Bool :=
  (hashToPath s h).map (fun p => (lookupA s.files p).isSome)

/-- Go `Store.Delete(contentHash)`: remove the file at `hashToPath`
(`none` models the `NotFound` remove error); the removal of now-empty
ancestor directories has no observable effect in the file map. -/
def storeDelete (s : StoreSt) (h : List Char) : Except GoPanic (Option StoreSt) :=
  (hashToPath s h).map (fun p =>
    if (lookupA s.files p).isSome then some { s with files := eraseA s.files p } else none)

/-- Parent directory of a path (`filepath.Dir`). -/
def dirOfPath (p : List (List Char)) : List (List Char) := p.dropLast

/-- Join path components with a slash (`filepath.ToSlash` of the joined
relative path). -/
def joinSlash : List (List Char) → List Char
  | [] => []
  | [c] => c
  | c :: rest => c ++ '/' :: joinSlash rest

/-- Go `Store.List()`: walk the base tree, keep every file whose directory
is not exactly the temp directory, and report its base-relative
slash-joined path. -/
def storeList (s : StoreSt) : List (List Char) :=
  (s.files.filter (fun e => decide (dirOfPath e.1 ≠ tempDirOf s))).map
    (fun e => joinSlash (e.1.drop s.baseDir.length))

/-- The sharded on-disk path of a hash, `<base>/<h[0:2]>/<h[2:4]>/<h[4:]>`,
as `hashToPath` computes it for hashes of length at least 4. -/
def shardPath (base : List (List Char)) (h : List Char) : List (List Char) :=
  base ++ [h.take 2, (h.drop 2).take 2, h.drop 4]

/-- The base-relative slash-joined name `storeList` reports for a stored
hash: `h[0:2]/h[2:4]/h[4:]`. -/
def shardName (h : List Char) : List Char :=
  h.take 2 ++ '/' :: ((h.drop 2).take 2 ++ '/' :: h.drop 4)

/-- Inverse of `shardName` on hashes of length at least 4. -/
def unshard (s : List Char) : List Char :=
  s.take 2 ++ ((s.drop 3).take 2 ++ s.drop 6)

/-! ### Message codec (src/internal/protocol, package protocol)

A marshalled payload (`json.RawMessage`) is modelled as a JSON value tree;
`encoding/json` behaviour for the five payload structs is embedded
concretely: byte slices marshal to base64 strings, nil slices to `null`,
ints to numbers; unmarshalling matches object fields by tag name, ignores
unknown fields, treats absent or null fields as the zero value, and errors
when a present field has an incompatible shape. -/

inductive Json where
  | null
  | jbool (b : Bool)
  | jnum (i : Int)
  | jstr (s : String)
  | jarr (xs : List Json)
  | jobj (fields : List (String × Json))

def b64Alphabet : List Char :=
  ['A', 'B', 'C', 'D', 'E', 'F', 'G', 'H', 'I', 'J', 'K', 'L', 'M',
   'N', 'O', 'P', 'Q', 'R', 'S', 'T', 'U', 'V', 'W', 'X', 'Y', 'Z',
   'a', 'b', 'c', 'd', 'e', 'f', 'g', 'h', 'i', 'j', 'k', 'l', 'm',
   'n', 'o', 'p', 'q', 'r', 's', 't', 'u', 'v', 'w', 'x', 'y', 'z',
   '0', '1', '2', '3', '4', '5', '6', '7', '8', '9', '+', '/']

def b64Char (n : Nat) : Char := b64Alphabet.getD n 'A'

def idxIn (c : Char) : List Char → Option Nat
  | [] => none
  | a :: rest => if a = c then some 0 else (idxIn c rest).map (· + 1)

def b64Idx (c : Char) : Option Nat := idxIn c b64Alphabet

/-- Standard base64 encoding of a byte list (`encoding/base64` as used by
`encoding/json` for `[]byte` fields). -/
def b64eC : List Nat → List Char
  | [] => []
  | [a] => [b64Char (a / 4), b64Char (a % 4 * 16), '=', '=']
  | [a, b] => [b64Char (a / 4), b64Char (a % 4 * 16 + b / 16), b64Char (b % 16 * 4), '=']
  | a :: b :: c :: rest =>
      b64Char (a / 4) :: b64Char (a % 4 * 16 + b / 16) ::
        b64Char (b % 16 * 4 + c / 64) :: b64Char (c % 64) :: b64eC rest

/-- Standard base64 decoding; `none` on bad length, bad characters or
misplaced padding. -/
def b64dC : List Char → Option (List Nat)
  | [] => some []
  | c1 :: c2 :: c3 :: c4 :: rest =>
      if c3 = '=' ∧ c4 = '=' ∧ rest = [] then
        (b64Idx c1).bind (fun i1 => (b64Idx c2).map (fun i2 => [i1 * 4 + i2 / 16]))
      else if c4 = '=' ∧ rest = [] then
        (b64Idx c1).bind (fun i1 => (b64Idx c2).bind (fun i2 => (b64Idx c3).map (fun i3 =>
          [i1 * 4 + i2 / 16, i2 % 16 * 16 + i3 / 4])))
      else
        (b64Idx c1).bind (fun i1 => (b64Idx c2).bind (fun i2 => (b64Idx c3).bind (fun i3 =>
          (b64Idx c4).bind (fun i4 => (b64dC rest).map (fun tail =>
            (i1 * 4 + i2 / 16) :: (i2 % 16 * 16 + i3 / 4) :: (i3 % 4 * 64 + i4) :: tail)))))
  | _ => none

inductive JsonErr where
  | typeMismatch
  | badBase64
  deriving DecidableEq

/-- Field lookup in a JSON object by tag name; when a key repeats, the
last occurrence wins (`encoding/json` assigns sequentially). -/
def getField : List (String × Json) → String → Option Json
  | [], _ => none
  | (k, v) :: rest, name =>
      match getField rest name with
      | some w => some w
      | none => if k = name then some v else none

def decStr : Option Json → Except JsonErr String
  | none => Except.ok ""
  | some Json.null => Except.ok ""
  | some (Json.jstr s) => Except.ok s
  | some _ => Except.error .typeMismatch

def decBool : Option Json → Except JsonErr Bool
  | none => Except.ok false
  | some Json.null => Except.ok false
  | some (Json.jbool b) => Except.ok b
  | some _ => Except.error .typeMismatch

def decInt : Option Json → Except JsonErr Int
  | none => Except.ok 0
  | some Json.null => Except.ok 0
  | some (Json.jnum i) => Except.ok i
  | some _ => Except.error .typeMismatch

def decBytes : Option Json → Except JsonErr (Option (List Nat))
  | none => Except.ok none
  | some Json.null => Except.ok none
  | some (Json.jstr s) =>
      match b64dC s.toList with
      | some bs => Except.ok (some bs)
      | none => Except.error .badBase64
  | some _ => Except.error .typeMismatch

def decStrElems : List Json → Except JsonErr (List String)
  | [] => Except.ok []
  | Json.jstr s :: rest => (decStrElems rest).map (s :: ·)
  | Json.null :: rest => (decStrElems rest).map ("" :: ·)
  | _ => Except.error .typeMismatch

def decStrList : Option Json → Except JsonErr (Option (List String))
  | none => Except.ok none
  | some Json.null => Except.ok none
  | some (Json.jarr xs) => (decStrElems xs).map some
  | some _ => Except.error .typeMismatch

def encBytes : Option (List Nat) → Json
  | none => Json.null
  | some bs => Json.jstr (String.mk (b64eC bs))

def encStrList : Option (List String) → Json
  | none => Json.null
  | some xs => Json.jarr (xs.map Json.jstr)

/-- Byte-slice values representable as Go bytes. -/
def bytesValid : Option (List Nat) → Prop
  | none => True
  | some bs => ∀ b ∈ bs, b < 256

structure HandshakePayload where
  nodeId : String
  address : String
  knownPeers : Option (List String)
  key : Option (List Nat)
  deriving DecidableEq

structure DataPayload where
  contentHash : String
  fileName : String
  size : Int
  encrypted : Bool
  iv : Option (List Nat)
  fromWatch : Bool
  deriving DecidableEq

structure DataRequest where
  contentHash : String
  fromWatch : Bool
  deriving DecidableEq

structure DataTransfer where
  contentHash : String
  data : Option (List Nat)
  chunkIndex : Int
  finalChunk : Bool
  iv : Option (List Nat)
  fromWatch : Bool
  deriving DecidableEq

structure DiscoveryPayload where
  nodeId : String
  address : String
  deriving DecidableEq

def marshalHandshake (p : HandshakePayload) : Json :=
  Json.jobj [("node_id", Json.jstr p.nodeId), ("address", Json.jstr p.address),
    ("known_peers", encStrList p.knownPeers), ("key", encBytes p.key)]

def marshalData (p : DataPayload) : Json :=
  Json.jobj [("content_hash", Json.jstr p.contentHash), ("file_name", Json.jstr p.fileName),
    ("size", Json.jnum p.size), ("encrypted", Json.jbool p.encrypted),
    ("iv", encBytes p.iv), ("from_watch", Json.jbool p.fromWatch)]

def marshalDataRequest (p : DataRequest) : Json :=
  Json.jobj [("content_hash", Json.jstr p.contentHash), ("from_watch", Json.jbool p.fromWatch)]

/-- Marshal `DataTransfer`; its `iv` field carries `omitempty`, so a nil
or empty iv produces no field at all. -/
def marshalDataTransfer (p : DataTransfer) : Json :=
  Json.jobj ([("content_hash", Json.jstr p.contentHash), ("data", encBytes p.data),
    ("chunk_index", Json.jnum p.chunkIndex), ("final_chunk", Json.jbool p.finalChunk)] ++
    (match p.iv with
     | none => []
     | some [] => []
     | some bs => [("iv", encBytes (some bs))]) ++
    [("from_watch", Json.jbool p.fromWatch)])

def marshalDiscovery (p : DiscoveryPayload) : Json :=
  Json.jobj [("node_id", Json.jstr p.nodeId), ("address", Json.jstr p.address)]

def unmarshalHandshake : Json → Except JsonErr HandshakePayload
  | Json.jobj fs => do
      let nodeId ← decStr (getField fs "node_id")
      let address ← decStr (getField fs "address")
      let knownPeers ← decStrList (getField fs "known_peers")
      let key ← decBytes (getField fs "key")
      pure ⟨nodeId, address, knownPeers, key⟩
  | _ => Except.error .typeMismatch

def unmarshalData : Json → Except JsonErr DataPayload
  | Json.jobj fs => do
      let contentHash ← decStr (getField fs "content_hash")
      let fileName ← decStr (getField fs "file_name")
      let size ← decInt (getField fs "size")
      let encrypted ← decBool (getField fs "encrypted")
      let iv ← decBytes (getField fs "iv")
      let fromWatch ← decBool (getField fs "from_watch")
      pure ⟨contentHash, fileName, size, encrypted, iv, fromWatch⟩
  | _ => Except.error .typeMismatch

def unmarshalDataRequest : Json → Except JsonErr DataRequest
  | Json.jobj fs => do
      let contentHash ← decStr (getField fs "content_hash")
      let fromWatch ← decBool (getField fs "from_watch")
      pure ⟨contentHash, fromWatch⟩
  | _ => Except.error .typeMismatch

def unmarshalDataTransfer : Json → Except JsonErr DataTransfer
  | Json.jobj fs => do
      let contentHash ← decStr (getField fs "content_hash")
      let dataBytes ← decBytes (getField fs "data")
      let chunkIndex ← decInt (getField fs "chunk_index")
      let finalChunk ← decBool (getField fs "final_chunk")
      let iv ← decBytes (getField fs "iv")
      let fromWatch ← decBool (getField fs "from_watch")
      pure ⟨contentHash, dataBytes, chunkIndex, finalChunk, iv, fromWatch⟩
  | _ => Except.error .typeMismatch

def unmarshalDiscovery : Json → Except JsonErr DiscoveryPayload
  | Json.jobj fs => do
      let nodeId ← decStr (getField fs "node_id")
      let address ← decStr (getField fs "address")
      pure ⟨nodeId, address⟩
  | _ => Except.error .typeMismatch

inductive MessageType where
  | handshake
  | data
  | discovery
  | dataRequest
  | dataTransfer
  deriving DecidableEq

/-- Go `protocol.Message`: type, sender, and the marshalled payload. -/
structure Message where
  type : MessageType
  senderId : String
  payload : Json

/-- Go `protocol.NewMessage`: marshal the payload (here already a JSON
value) and wrap it with the type and sender. -/
def NewMessage (msgType : MessageType) (senderID : String) (payload : Json) : Message :=
  ⟨msgType, senderID, payload⟩

/-- Go `Message.ParsePayload` with a `*HandshakePayload` target. -/
def parseAsHandshake (m : Message) : Except JsonErr HandshakePayload :=
  unmarshalHandshake m.payload

/-- Go `Message.ParsePayload` with a `*DataPayload` target. -/
def parseAsData (m : Message) : Except JsonErr DataPayload :=
  unmarshalData m.payload

/-- Go `Message.ParsePayload` with a `*DataRequest` target. -/
def parseAsDataRequest (m : Message) : Except JsonErr DataRequest :=
  unmarshalDataRequest m.payload

/-- Go `Message.ParsePayload` with a `*DataTransfer` target. -/
def parseAsDataTransfer (m : Message) : Except JsonErr DataTransfer :=
  unmarshalDataTransfer m.payload

/-- Go `Message.ParsePayload` with a `*DiscoveryPayload` target. -/
def parseAsDiscovery (m : Message) : Except JsonErr DiscoveryPayload :=
  unmarshalDiscovery m.payload

/-! ### Peer and Transport (src/internal/network, package network) -/

/-- Observable state of one peer connection: whether its `done` channel
and its underlying conn have been closed. -/
structure PeerState where
  doneClosed : Bool
  connClosed : Bool
  deriving DecidableEq

/-- Go `close(ch)`: closing an already-closed channel is a runtime
panic. -/
def chanClose (alreadyClosed : Bool) : Except GoPanic Unit :=
  if alreadyClosed then Except.error .closeOfClosedChannel else Except.ok ()

/-- Go `Peer.Close`: `close(p.done)` followed by `p.conn.Close()`. -/
def peerClose (p : PeerState) : Except GoPanic PeerState :=
  match chanClose p.doneClosed with
  | Except.error e => Except.error e
  | Except.ok _ => Except.ok { doneClosed := true, connClosed := true }

/-- Go `Transport.Broadcast` loop body: attempt `peer.Send` for every
registered peer in turn, recording each send's outcome (a failed send is
only logged, `some err` here). -/
def broadcastLoop (send : String → Option String) : List String → List (String × Option String)
  | [] => []
  | p :: rest => (p, send p) :: broadcastLoop send rest

/-- Go `Transport.Broadcast`: iterate over every registered peer and
return `nil`. -/
def transportBroadcast (peers : List String) (send : String → Option String) :
    List (String × Option String) × Option String :=
  (broadcastLoop send peers, none)

/-! ### Node coordinator (src/internal/node, package node) -/

structure PeerInfo where
  id : String
  address : String
  deriving DecidableEq

/-- The slice of node state that `handleHandshake` mutates under the node
lock. -/
structure HsNodeState where
  isFirstNode : Bool
  networkKey : List Nat
  keyReadyClosed : Bool
  peers : List (String × PeerInfo)
  deriving DecidableEq

/-- Go `Node.handleHandshake`, the locked mutation: upsert the sender into
the peers map; for a joiner whose handshake carries a non-nil key, assign
`networkKey` and close `keyReady` unless already closed (the
`select`/`default` guard).  The returned flag says whether the key-ready
signal fired in this call. -/
def handleHandshakeState (n : HsNodeState) (payload : HandshakePayload) : HsNodeState × Bool :=
  let n1 := { n with peers := insertA n.peers payload.nodeId ⟨payload.nodeId, payload.address⟩ }
  if n1.isFirstNode then (n1, false)
  else
    match payload.key with
    | none => (n1, false)
    | some k => ({ n1 with networkKey := k, keyReadyClosed := true }, !n1.keyReadyClosed)

def MB : Nat := 1024 * 1024

/-- Go `Node.handleDataRequest`'s streaming loop over the loaded file
bytes: each `Read` fills up to 1 MiB of the buffer, a `(0, io.EOF)` read
breaks the loop, and each chunk is sent with the running index and
`FinalChunk = bytesRead < len(buffer)`. -/
def serveChunks (hash : String) (fromWatch : Bool) (data : List Nat) (idx : Int) :
    List DataTransfer :=
  if data = [] then []
  else
    ⟨hash, some (data.take MB), idx, decide (min data.length MB < MB), none, fromWatch⟩ ::
      serveChunks hash fromWatch (data.drop MB) (idx + 1)
termination_by data.length
decreasing_by
  have hm : MB = 1048576 := rfl
  have hl : 0 < data.length := List.length_pos.mpr (by assumption)
  simp only [List.length_drop]
  omega

/-- Go `Node.handleDataRequest`: load the object from the store (failing
when absent) and stream it to the requesting peer in 1 MiB chunks. -/
def handleDataRequest (store : List (String × List Nat)) (req : DataRequest) :
    Except String (List DataTransfer) :=
  match lookupA store req.contentHash with
  | none => Except.error "failed to load file"
  | some content => Except.ok (serveChunks req.contentHash req.fromWatch content 0)

inductive XferErr where
  | writeFailed
  | stateNotFound
  | hashMismatch
  | decryptFailed
  deriving DecidableEq

/-- Go `node.transferState`: the temp file (by id into the temp-file map),
the received chunk indices, the received count, and the origin flag. -/
structure TransferSt where
  tempId : Nat
  chunks : List Int
  received : Nat
  fromWatch : Bool
  deriving DecidableEq

/-- The node state touched by the transfer path: in-flight transfers keyed
by `peerId + "-" + contentHash`, the temp files, the content store, the
downloads directory, and the network key. -/
structure NodeSt where
  transfers : List (String × TransferSt)
  tempFiles : List (Nat × List Nat)
  storeObjs : List (String × List Nat)
  downloads : List (String × List Nat)
  nextTemp : Nat
  networkKey : List Nat
  deriving DecidableEq

/-- `os.File.WriteAt`: overwrite `data` at `offset`, zero-filling any gap
past the current end of the file. -/
def writeAt (file : List Nat) (offset : Nat) (data : List Nat) : List Nat :=
  (file.take offset ++ List.replicate (offset - file.length) 0) ++
    data ++ file.drop (offset + data.length)

/-- Go `Node.finalizeWatchTransfer`: pop the transfer state, rehash the
reassembled temp file, verify against the announced hash, and only on a
match install the ciphertext into the store; the deferred cleanup removes
the temp file on every path after the state was found.  The SHA-1 is the
pure function parameter `H`. -/
def finalizeWatchTransfer (H : List Nat → String) (n : NodeSt) (tkey expected : String) :
    Option XferErr × NodeSt :=
  match lookupA n.transfers tkey with
  | none => (some XferErr.stateNotFound, n)
  | some st =>
    let n1 := { n with transfers := eraseA n.transfers tkey }
    let contents := (lookupA n1.tempFiles st.tempId).getD []
    let n2 := { n1 with tempFiles := eraseA n1.tempFiles st.tempId }
    if H contents ≠ expected then (some XferErr.hashMismatch, n2)
    else (none, { n2 with storeObjs := insertA n2.storeObjs expected contents })

/-- Go `Node.finalizeDownload`: pop the transfer state, rehash and verify,
create `downloads/<hash>` and decrypt the temp file into it with the
network key, removing the partial output when decryption fails; the temp
file is removed on every path after the state was found. -/
def finalizeDownload (H : List Nat → String) (ks : List Nat → List Nat → Nat → Nat)
    (n : NodeSt) (tkey expected : String) : Option XferErr × NodeSt :=
  match lookupA n.transfers tkey with
  | none => (some XferErr.stateNotFound, n)
  | some st =>
    let n1 := { n with transfers := eraseA n.transfers tkey }
    let contents := (lookupA n1.tempFiles st.tempId).getD []
    let n2 := { n1 with tempFiles := eraseA n1.tempFiles st.tempId }
    if H contents ≠ expected then (some XferErr.hashMismatch, n2)
    else
      match DecryptStream ks n2.networkKey contents with
      | Except.error _ => (some XferErr.decryptFailed, n2)
      | Except.ok plain => (none, { n2 with downloads := insertA n2.downloads expected plain })

/-- Go `Node.handleDataTransfer`: find or lazily create the transfer
state for `peerId + "-" + contentHash` (allocating a fresh empty temp file
and recording the incoming `FromWatch` as the origin), write the chunk
bytes at offset `chunkIndex * 1 MiB` (`WriteAt` fails on a negative
offset), record the chunk index and bump the counter, and on a final
chunk dispatch on the recorded origin. -/
def handleDataTransfer (H : List Nat → String) (ks : List Nat → List Nat → Nat → Nat)
    (n : NodeSt) (peerId : String) (t : DataTransfer) : Option XferErr × NodeSt :=
  let tkey := peerId ++ "-" ++ t.contentHash
  let found :=
    match lookupA n.transfers tkey with
    | some st => (st, n)
    | none =>
        let st : TransferSt := ⟨n.nextTemp, [], 0, t.fromWatch⟩
        (st, { n with
          transfers := insertA n.transfers tkey st,
          tempFiles := insertA n.tempFiles n.nextTemp [],
          nextTemp := n.nextTemp + 1 })
  let st := found.1
  let n1 := found.2
  if t.chunkIndex < 0 then (some XferErr.writeFailed, n1)
  else
    let contents := (lookupA n1.tempFiles st.tempId).getD []
    let contents1 := writeAt contents (t.chunkIndex.toNat * MB) (t.data.getD [])
    let n2 := { n1 with tempFiles := insertA n1.tempFiles st.tempId contents1 }
    let st1 := { st with chunks := t.chunkIndex :: st.chunks, received := st.received + 1 }
    let n3 := { n2 with transfers := insertA n2.transfers tkey st1 }
    if t.finalChunk then
      if st1.fromWatch then finalizeWatchTransfer H n3 tkey t.contentHash
      else finalizeDownload H ks n3 tkey t.contentHash
    else (none, n3)

/-! ### Theorems -/

theorem lookupA_insertA_self {α β : Type} [DecidableEq α] (l : List (α × β)) (k : α) (v : β) :
    lookupA (insertA l k v) k = some v := by
  simp [insertA, lookupA]

theorem lookupA_eraseA_self {α β : Type} [DecidableEq α] (l : List (α × β)) (k : α) :
    lookupA (eraseA l k) k = none := by
  induction l with
  | nil => rfl
  | cons e rest ih =>
    by_cases h : e.1 = k
    · simpa [eraseA, lookupA, h] using ih
    · simpa [eraseA, lookupA, h] using ih

theorem lookupA_eraseA_ne {α β : Type} [DecidableEq α] (l : List (α × β)) (k k' : α)
    (h : k' ≠ k) : lookupA (eraseA l k) k' = lookupA l k' := by
  have hkk : ¬ k = k' := fun hc => h hc.symm
  induction l with
  | nil => rfl
  | cons e rest ih =>
    obtain ⟨a, v⟩ := e
    simp only [eraseA, List.filter_cons, decide_not] at ih ⊢
    by_cases he : a = k
    · have h2 : ¬ a = k' := fun hc => h (he ▸ hc ▸ rfl)
      simp [he, lookupA, h2, ih, hkk]
    · by_cases he' : a = k'
      · simp [he, lookupA, he', h]
      · simp [he, lookupA, he', ih]

theorem lookupA_insertA_ne {α β : Type} [DecidableEq α] (l : List (α × β)) (k k' : α) (v : β)
    (h : k' ≠ k) : lookupA (insertA l k v) k' = lookupA l k' := by
  have : k ≠ k' := fun hc => h hc.symm
  simp [insertA, lookupA, this]
  exact lookupA_eraseA_ne l k k' h

theorem xorBytes_append (ks : Nat → Nat) (l₁ l₂ : List Nat) :
    ∀ pos, xorBytes ks pos (l₁ ++ l₂) = xorBytes ks pos l₁ ++ xorBytes ks (pos + l₁.length) l₂ := by
  induction l₁ with
  | nil => intro pos; simp [xorBytes]
  | cons b rest ih =>
    intro pos
    show (b ^^^ ks pos) :: xorBytes ks (pos + 1) (rest ++ l₂) =
      (b ^^^ ks pos) :: (xorBytes ks (pos + 1) rest ++ xorBytes ks (pos + (b :: rest).length) l₂)
    rw [ih (pos + 1)]
    have h1 : pos + 1 + rest.length = pos + (b :: rest).length := by
      simp [List.length_cons]; omega
    rw [h1]

theorem ctrProcess_eq_xorBytes (ks : Nat → Nat) (pos : Nat) (data : List Nat) :
    ctrProcess ks pos data = xorBytes ks pos data := by
  rw [ctrProcess]
  by_cases h : data = []
  · simp [h, xorBytes]
  · simp only [h, dite_false]
    rw [ctrProcess_eq_xorBytes ks (pos + (data.take ChunkSize).length) (data.drop ChunkSize)]
    have hx := xorBytes_append ks (data.take ChunkSize) (data.drop ChunkSize) pos
    rw [List.take_append_drop] at hx
    simp only [List.length_take] at hx ⊢
    exact hx.symm
termination_by data.length
decreasing_by
  have hc : ChunkSize = 65536 := rfl
  have hl : 0 < data.length := List.length_pos.mpr h
  simp only [List.length_drop]
  omega

theorem xorBytes_involutive (ks : Nat → Nat) (data : List Nat) :
    ∀ pos, xorBytes ks pos (xorBytes ks pos data) = data := by
  induction data with
  | nil => intro pos; rfl
  | cons b rest ih =>
    intro pos
    simp only [xorBytes, ih (pos + 1)]
    congr 1
    rw [Nat.xor_assoc, Nat.xor_self, Nat.xor_zero]

/-- C3: for every key of length exactly 32 bytes and every plaintext `P`
(of any length, in particular lengths crossing 64 KiB chunk boundaries),
`DecryptStream` applied with that key to the output of
`EncryptStream key P` yields exactly `P`, for every CTR keystream and
every generated 16-byte IV. -/
theorem encrypt_decrypt_roundtrip (ks : List Nat → List Nat → Nat → Nat)
    (key iv plaintext : List Nat) (hkey : key.length = 32) (hiv : iv.length = 16) :
    ∃ c, EncryptStream ks key iv plaintext = Except.ok c ∧
      DecryptStream ks key c = Except.ok plaintext := by
  refine ⟨iv ++ ctrProcess (ks key iv) 0 plaintext, ?_, ?_⟩
  · simp [EncryptStream, hkey, KeySize]
  · have hnlt : ¬ (iv ++ ctrProcess (ks key iv) 0 plaintext).length < IVSize := by
      simp only [List.length_append, hiv, IVSize]
      omega
    have htake : (iv ++ ctrProcess (ks key iv) 0 plaintext).take IVSize = iv := by
      have : IVSize = iv.length := by rw [hiv]; rfl
      rw [this, List.take_left]
    have hdrop : (iv ++ ctrProcess (ks key iv) 0 plaintext).drop IVSize =
        ctrProcess (ks key iv) 0 plaintext := by
      have : IVSize = iv.length := by rw [hiv]; rfl
      rw [this, List.drop_left]
    simp only [DecryptStream, hkey, KeySize, hnlt, htake, hdrop, reduceIte]
    rw [ctrProcess_eq_xorBytes, ctrProcess_eq_xorBytes, xorBytes_involutive]

/-- Witness for C3 at a concrete keystream, key, IV and plaintext. -/
theorem encrypt_decrypt_roundtrip_witness :
    ∃ c, EncryptStream (fun _ _ _ => 0) (List.replicate 32 0) (List.replicate 16 0) [1, 2, 3] =
        Except.ok c ∧
      DecryptStream (fun _ _ _ => 0) (List.replicate 32 0) c = Except.ok [1, 2, 3] :=
  encrypt_decrypt_roundtrip (fun _ _ _ => 0) (List.replicate 32 0) (List.replicate 16 0)
    [1, 2, 3] (by decide) (by decide)

theorem goSlice_ok (s : List Char) (lo hi : Nat) (h : lo ≤ hi ∧ hi ≤ s.length) :
    goSlice s lo hi = Except.ok ((s.drop lo).take (hi - lo)) := by
  simp only [goSlice]; rw [if_pos h]

theorem goSlice_err (s : List Char) (lo hi : Nat) (h : ¬ (lo ≤ hi ∧ hi ≤ s.length)) :
    goSlice s lo hi = Except.error GoPanic.sliceOutOfRange := by
  simp only [goSlice]; rw [if_neg h]

theorem goSliceFrom_ok (s : List Char) (lo : Nat) (h : lo ≤ s.length) :
    goSliceFrom s lo = Except.ok (s.drop lo) := by
  simp only [goSliceFrom]; rw [if_pos h]

theorem goSliceFrom_err (s : List Char) (lo : Nat) (h : ¬ lo ≤ s.length) :
    goSliceFrom s lo = Except.error GoPanic.sliceOutOfRange := by
  simp only [goSliceFrom]; rw [if_neg h]

theorem hashToPath_ok (s : StoreSt) (h : List Char) (hlen : 4 ≤ h.length) :
    hashToPath s h = Except.ok (shardPath s.baseDir h) := by
  unfold hashToPath
  rw [goSlice_ok h 0 2 (by omega), goSlice_ok h 2 4 (by omega), goSliceFrom_ok h 4 (by omega)]
  show Except.ok (s.baseDir ++ [(h.drop 0).take 2, (h.drop 2).take 2, h.drop 4]) =
    Except.ok (shardPath s.baseDir h)
  rw [List.drop_zero]
  rfl

theorem hashToPath_short (s : StoreSt) (h : List Char) (hlen : h.length < 4) :
    hashToPath s h = Except.error GoPanic.sliceOutOfRange := by
  by_cases h2 : 2 ≤ h.length
  · unfold hashToPath
    rw [goSlice_ok h 0 2 (by omega), goSlice_err h 2 4 (by omega)]
    rfl
  · unfold hashToPath
    rw [goSlice_err h 0 2 (by omega)]
    rfl

/-- C8: for every contentHash `h` (of valid length), `storeStore`
installs the bytes at `<base>/<h[0:2]>/<h[2:4]>/<h[4:]>`, and
`storeLoad`, `storeExists` and `storeDelete` resolve `h` to that same
path. -/
theorem store_ops_resolve_sharded_path (s : StoreSt) (h : List Char) (c : List Nat)
    (hlen : 4 ≤ h.length) :
    ∃ s', storeStore s h c = Except.ok s' ∧
      lookupA s'.files (s.baseDir ++ [h.take 2, (h.drop 2).take 2, h.drop 4]) = some c ∧
      storeLoad s' h = Except.ok (some c) ∧
      storeExists s' h = Except.ok true ∧
      ∃ s'', storeDelete s' h = Except.ok (some s'') ∧
        lookupA s''.files (s.baseDir ++ [h.take 2, (h.drop 2).take 2, h.drop 4]) = none := by
  have hpath : hashToPath s h = Except.ok (shardPath s.baseDir h) := hashToPath_ok s h hlen
  set p := shardPath s.baseDir h with hp
  have hs' : storeStore s h c = Except.ok { s with files := insertA s.files p c } := by
    unfold storeStore; rw [hpath]; rfl
  refine ⟨_, hs', ?_, ?_, ?_, ?_⟩
  · exact lookupA_insertA_self s.files p c
  · have hpath' : hashToPath { s with files := insertA s.files p c } h = Except.ok p :=
      hashToPath_ok _ h hlen
    unfold storeLoad; rw [hpath']
    exact congrArg Except.ok (lookupA_insertA_self s.files p c)
  · have hpath' : hashToPath { s with files := insertA s.files p c } h = Except.ok p :=
      hashToPath_ok _ h hlen
    unfold storeExists; rw [hpath']
    show Except.ok ((lookupA (insertA s.files p c) p).isSome) = Except.ok true
    rw [lookupA_insertA_self]
    rfl
  · have hpath' : hashToPath { s with files := insertA s.files p c } h = Except.ok p :=
      hashToPath_ok _ h hlen
    refine ⟨{ s with files := eraseA (insertA s.files p c) p }, ?_, ?_⟩
    · unfold storeDelete; rw [hpath']
      show Except.ok (if (lookupA (insertA s.files p c) p).isSome = true then _ else none) = _
      rw [lookupA_insertA_self]
      rfl
    · exact lookupA_eraseA_self _ p

/-- Witness for C8 at a concrete store and hash. -/
theorem store_ops_resolve_sharded_path_witness :
    ∃ s', storeStore ⟨[['s']], []⟩ ['a', 'b', 'c', 'd', 'e'] [7] = Except.ok s' ∧
      lookupA s'.files ([['s']] ++ [['a', 'b'], ['c', 'd'], ['e']]) = some [7] ∧
      storeLoad s' ['a', 'b', 'c', 'd', 'e'] = Except.ok (some [7]) ∧
      storeExists s' ['a', 'b', 'c', 'd', 'e'] = Except.ok true ∧
      ∃ s'', storeDelete s' ['a', 'b', 'c', 'd', 'e'] = Except.ok (some s'') ∧
        lookupA s''.files ([['s']] ++ [['a', 'b'], ['c', 'd'], ['e']]) = none := by
  have := store_ops_resolve_sharded_path ⟨[['s']], []⟩ ['a', 'b', 'c', 'd', 'e'] [7] (by decide)
  simpa using this

/-- C10: every store operation that derives a path from the hash panics
with a slice-out-of-range fault on any contentHash shorter than 4
characters, and for length at least 4 the path derivation succeeds, so
`4 ≤ h.length` is the precondition under which the modelled error branch
is the only failure mode. -/
theorem store_ops_panic_on_short_hash (s : StoreSt) (h : List Char) (c : List Nat) :
    (h.length < 4 →
      storeStore s h c = Except.error GoPanic.sliceOutOfRange ∧
      storeLoad s h = Except.error GoPanic.sliceOutOfRange ∧
      storeExists s h = Except.error GoPanic.sliceOutOfRange ∧
      storeDelete s h = Except.error GoPanic.sliceOutOfRange) ∧
    (4 ≤ h.length → ∃ p, hashToPath s h = Except.ok p) := by
  constructor
  · intro hlt
    have hpath := hashToPath_short s h hlt
    refine ⟨?_, ?_, ?_, ?_⟩
    · unfold storeStore; rw [hpath]; rfl
    · unfold storeLoad; rw [hpath]; rfl
    · unfold storeExists; rw [hpath]; rfl
    · unfold storeDelete; rw [hpath]; rfl
  · intro hge
    exact ⟨shardPath s.baseDir h, hashToPath_ok s h hge⟩

theorem unshard_shardName : ∀ (h : List Char), 4 ≤ h.length → unshard (shardName h) = h
  | _ :: _ :: _ :: _ :: _, _ => rfl
  | [], hl => absurd hl (by simp)
  | [_], hl => absurd hl (by simp)
  | [_, _], hl => absurd hl (by simp)
  | [_, _, _], hl => absurd hl (by simp)

theorem shardName_inj (h h' : List Char) (hl : 4 ≤ h.length) (hl' : 4 ≤ h'.length)
    (he : shardName h = shardName h') : h = h' := by
  have hu := congrArg unshard he
  rwa [unshard_shardName h hl, unshard_shardName h' hl'] at hu

theorem count_map_eq_one {α β : Type} [BEq β] [LawfulBEq β] (f : α → β)
    (l : List α) (a : α) (ha : a ∈ l) (hnd : l.Nodup)
    (hinj : ∀ x ∈ l, f x = f a → x = a) :
    (l.map f).count (f a) = 1 := by
  induction l with
  | nil => cases ha
  | cons x rest ih =>
    rw [List.map_cons, List.count_cons]
    rcases List.mem_cons.mp ha with heq | hmem
    · have hnin : x ∉ rest := (List.nodup_cons.mp hnd).1
      have hcount0 : (rest.map f).count (f a) = 0 := by
        rw [List.count_eq_zero]
        intro hc
        obtain ⟨y, hy, hfy⟩ := List.mem_map.mp hc
        have hya : y = a := hinj y (List.mem_cons_of_mem _ hy) hfy
        exact hnin (heq ▸ hya ▸ hy)
      rw [hcount0, heq]
      simp
    · have hnd' := (List.nodup_cons.mp hnd).2
      have hne : ¬ f a = f x := by
        intro hfx
        have hxa : x = a := hinj x (List.mem_cons_self _ _) hfx.symm
        exact (List.nodup_cons.mp hnd).1 (hxa ▸ hmem)
      have hinj' : ∀ y ∈ rest, f y = f a → y = a := fun y hy => hinj y (List.mem_cons_of_mem _ hy)
      rw [ih hmem hnd' hinj']
      have hne2 : ¬ f x = f a := fun hc => hne hc.symm
      simp [hne, hne2]

theorem dirOfPath_shardPath (base : List (List Char)) (h : List Char) :
    dirOfPath (shardPath base h) = base ++ [h.take 2, (h.drop 2).take 2] := by
  unfold dirOfPath shardPath
  have hsplit : base ++ [h.take 2, (h.drop 2).take 2, h.drop 4] =
      (base ++ [h.take 2, (h.drop 2).take 2]) ++ [h.drop 4] := by simp
  rw [hsplit, List.dropLast_concat]

theorem dirOfPath_tempFile (base : List (List Char)) (t : List Char) :
    dirOfPath (base ++ [tempDirName, t]) = base ++ [tempDirName] := by
  unfold dirOfPath
  have hsplit : base ++ [tempDirName, t] = (base ++ [tempDirName]) ++ [t] := by simp
  rw [hsplit, List.dropLast_concat]

theorem storeList_canonical (base : List (List Char)) (hs temps : List (List Char × List Nat)) :
    storeList ⟨base, hs.map (fun e => (shardPath base e.1, e.2)) ++
        temps.map (fun e => (base ++ [tempDirName, e.1], e.2))⟩ =
      hs.map (fun e => shardName e.1) := by
  unfold storeList
  simp only [tempDirOf, List.filter_append]
  have hkeep : (hs.map (fun e => (shardPath base e.1, e.2))).filter
        (fun e => decide (dirOfPath e.1 ≠ base ++ [tempDirName])) =
      hs.map (fun e => (shardPath base e.1, e.2)) := by
    induction hs with
    | nil => rfl
    | cons x rest ih =>
      simp only [List.map_cons, List.filter_cons]
      have hne : dirOfPath (shardPath base x.1) ≠ base ++ [tempDirName] := by
        rw [dirOfPath_shardPath]
        intro hc
        have hlen := congrArg List.length hc
        simp at hlen
      rw [if_pos (by simpa using hne), ih]
  have hdrop : (temps.map (fun e => (base ++ [tempDirName, e.1], e.2))).filter
      (fun e => decide (dirOfPath e.1 ≠ base ++ [tempDirName])) = [] := by
    induction temps with
    | nil => rfl
    | cons x rest ih =>
      simp only [List.map_cons, List.filter_cons]
      have heq : dirOfPath (base ++ [tempDirName, x.1]) = base ++ [tempDirName] :=
        dirOfPath_tempFile base x.1
      rw [if_neg (by simp [heq]), ih]
  rw [hkeep, hdrop, List.append_nil, List.map_map]
  have hfun : ((fun e : List (List Char) × List Nat => joinSlash (e.1.drop base.length)) ∘
      (fun e : List Char × List Nat => (shardPath base e.1, e.2))) =
      (fun e : List Char × List Nat => shardName e.1) := by
    funext e
    show joinSlash ((shardPath base e.1).drop base.length) = shardName e.1
    unfold shardPath
    rw [List.drop_left]
    rfl
  rw [hfun]

/-- C5 counterexample: after installing a hash, the list reports the
base-relative sharded path, never the hash string itself. -/
theorem storeList_reports_path_not_hash :
    storeStore ⟨[['s']], []⟩ ['a', 'b', 'c', '1', '2', '3'] [7] =
      Except.ok ⟨[['s']], [([['s'], ['a', 'b'], ['c', '1'], ['2', '3']], [7])]⟩ ∧
    ['a', 'b', 'c', '1', '2', '3'] ∉
      storeList ⟨[['s']], [([['s'], ['a', 'b'], ['c', '1'], ['2', '3']], [7])]⟩ ∧
    storeList ⟨[['s']], [([['s'], ['a', 'b'], ['c', '1'], ['2', '3']], [7])]⟩ =
      [['a', 'b', '/', 'c', '1', '/', '2', '3']] :=
  ⟨rfl, by decide, by decide⟩

/-- C5 amended: for a store holding distinct hashes (of valid length) at
their sharded paths plus arbitrary files directly under `temp/`, the list
contains the base-relative sharded path `h[0:2]/h[2:4]/h[4:]` of every
stored hash exactly once, and nothing for the temp files. -/
theorem storeList_counts_sharded_path_once (base : List (List Char))
    (hs temps : List (List Char × List Nat)) (h : List Char) (c : List Nat)
    (hmem : (h, c) ∈ hs) (hnd : (hs.map Prod.fst).Nodup)
    (hlen : ∀ x ∈ hs.map Prod.fst, 4 ≤ x.length) :
    (storeList ⟨base, hs.map (fun e => (shardPath base e.1, e.2)) ++
        temps.map (fun e => (base ++ [tempDirName, e.1], e.2))⟩).count (shardName h) = 1 := by
  rw [storeList_canonical]
  have hsplit : hs.map (fun e => shardName e.1) = (hs.map Prod.fst).map shardName := by
    rw [List.map_map]; rfl
  rw [hsplit]
  have hmem' : h ∈ hs.map Prod.fst := List.mem_map.mpr ⟨(h, c), hmem, rfl⟩
  exact count_map_eq_one shardName (hs.map Prod.fst) h hmem' hnd
    (fun x hx hfx => shardName_inj x h (hlen x hx) (hlen h hmem') hfx)

/-- Witness for the amended C5 at a concrete store with one stored hash
and one temp file. -/
theorem storeList_counts_sharded_path_once_witness :
    (storeList ⟨[['s']],
        [(['a', 'b', 'c', '1', '2'], [1])].map
            (fun e => (shardPath [['s']] e.1, e.2)) ++
          [(['t', 'x'], [2])].map
            (fun e => ([['s']] ++ [tempDirName, e.1], e.2))⟩).count
      (shardName ['a', 'b', 'c', '1', '2']) = 1 :=
  storeList_counts_sharded_path_once [['s']] [(['a', 'b', 'c', '1', '2'], [1])]
    [(['t', 'x'], [2])] ['a', 'b', 'c', '1', '2'] [1] (by decide) (by decide) (by decide)

theorem b64Idx_b64Char : ∀ n < 64, b64Idx (b64Char n) = some n := by decide

theorem b64Char_ne_pad : ∀ n < 64, b64Char n ≠ '=' := by decide

theorem b64dC_b64eC : ∀ (bs : List Nat), (∀ b ∈ bs, b < 256) → b64dC (b64eC bs) = some bs := by
  intro bs
  induction bs using b64eC.induct with
  | case1 => intro _; rfl
  | case2 a =>
    intro hv
    have ha : a < 256 := hv a (by simp)
    show b64dC [b64Char (a / 4), b64Char (a % 4 * 16), '=', '='] = some [a]
    rw [b64dC, if_pos ⟨rfl, rfl, rfl⟩,
      b64Idx_b64Char (a / 4) (by omega), b64Idx_b64Char (a % 4 * 16) (by omega)]
    show some [a / 4 * 4 + a % 4 * 16 / 16] = some [a]
    congr 1
    simp only [List.cons.injEq, and_true]
    omega
  | case3 a b =>
    intro hv
    have ha : a < 256 := hv a (by simp)
    have hb : b < 256 := hv b (by simp)
    show b64dC [b64Char (a / 4), b64Char (a % 4 * 16 + b / 16), b64Char (b % 16 * 4), '='] =
      some [a, b]
    rw [b64dC, if_neg (fun hc => b64Char_ne_pad (b % 16 * 4) (by omega) hc.1),
      if_pos ⟨rfl, rfl⟩,
      b64Idx_b64Char (a / 4) (by omega), b64Idx_b64Char (a % 4 * 16 + b / 16) (by omega),
      b64Idx_b64Char (b % 16 * 4) (by omega)]
    show some [a / 4 * 4 + (a % 4 * 16 + b / 16) / 16,
      (a % 4 * 16 + b / 16) % 16 * 16 + b % 16 * 4 / 4] = some [a, b]
    congr 1
    simp only [List.cons.injEq, and_true]
    constructor
    · omega
    · omega
  | case4 a b c rest ih =>
    intro hv
    have ha : a < 256 := hv a (by simp)
    have hb : b < 256 := hv b (by simp)
    have hc : c < 256 := hv c (by simp)
    have hrest : ∀ x ∈ rest, x < 256 := fun x hx => hv x (by simp [hx])
    show b64dC (b64Char (a / 4) :: b64Char (a % 4 * 16 + b / 16) ::
        b64Char (b % 16 * 4 + c / 64) :: b64Char (c % 64) :: b64eC rest) =
      some (a :: b :: c :: rest)
    rw [b64dC, if_neg (fun hx => b64Char_ne_pad (b % 16 * 4 + c / 64) (by omega) hx.1),
      if_neg (fun hx => b64Char_ne_pad (c % 64) (by omega) hx.1),
      b64Idx_b64Char (a / 4) (by omega), b64Idx_b64Char (a % 4 * 16 + b / 16) (by omega),
      b64Idx_b64Char (b % 16 * 4 + c / 64) (by omega), b64Idx_b64Char (c % 64) (by omega),
      ih hrest]
    show some ((a / 4 * 4 + (a % 4 * 16 + b / 16) / 16) ::
        ((a % 4 * 16 + b / 16) % 16 * 16 + (b % 16 * 4 + c / 64) / 4) ::
        ((b % 16 * 4 + c / 64) % 4 * 64 + c % 64) :: rest) =
      some (a :: b :: c :: rest)
    congr 1
    simp only [List.cons.injEq, and_true]
    refine ⟨by omega, by omega, by omega⟩

theorem decStrElems_map_jstr (xs : List String) :
    decStrElems (xs.map Json.jstr) = Except.ok xs := by
  induction xs with
  | nil => rfl
  | cons x rest ih =>
    show (decStrElems (rest.map Json.jstr)).map (x :: ·) = Except.ok (x :: rest)
    rw [ih]
    rfl

theorem decStrList_encStrList (o : Option (List String)) :
    decStrList (some (encStrList o)) = Except.ok o := by
  cases o with
  | none => rfl
  | some xs =>
    show (decStrElems (xs.map Json.jstr)).map some = Except.ok (some xs)
    rw [decStrElems_map_jstr]
    rfl

theorem decBytes_encBytes (o : Option (List Nat)) (hv : bytesValid o) :
    decBytes (some (encBytes o)) = Except.ok o := by
  cases o with
  | none => rfl
  | some bs =>
    show decBytes (some (Json.jstr (String.mk (b64eC bs)))) = Except.ok (some bs)
    have hb : b64dC (String.mk (b64eC bs)).toList = some bs := b64dC_b64eC bs hv
    simp only [decBytes]
    rw [hb]

theorem roundtripHandshake (p : HandshakePayload) (hv : bytesValid p.key) :
    unmarshalHandshake (marshalHandshake p) = Except.ok p := by
  obtain ⟨nodeId, address, knownPeers, key⟩ := p
  have e1 : unmarshalHandshake (marshalHandshake ⟨nodeId, address, knownPeers, key⟩) =
      Except.bind (decStrList (some (encStrList knownPeers))) (fun kp =>
        Except.bind (decBytes (some (encBytes key))) (fun k =>
          Except.ok ⟨nodeId, address, kp, k⟩)) := rfl
  rw [e1, decStrList_encStrList, decBytes_encBytes key hv]
  rfl

theorem roundtripData (p : DataPayload) (hv : bytesValid p.iv) :
    unmarshalData (marshalData p) = Except.ok p := by
  obtain ⟨contentHash, fileName, size, encrypted, iv, fromWatch⟩ := p
  have e1 : unmarshalData (marshalData ⟨contentHash, fileName, size, encrypted, iv, fromWatch⟩) =
      Except.bind (decBytes (some (encBytes iv))) (fun ivv =>
        Except.ok ⟨contentHash, fileName, size, encrypted, ivv, fromWatch⟩) := rfl
  rw [e1, decBytes_encBytes iv hv]
  rfl

theorem roundtripDataRequest (p : DataRequest) :
    unmarshalDataRequest (marshalDataRequest p) = Except.ok p := by
  obtain ⟨contentHash, fromWatch⟩ := p
  rfl

theorem roundtripDiscovery (p : DiscoveryPayload) :
    unmarshalDiscovery (marshalDiscovery p) = Except.ok p := by
  obtain ⟨nodeId, address⟩ := p
  rfl

theorem roundtripDataTransfer (p : DataTransfer) (hd : bytesValid p.data)
    (hiv : bytesValid p.iv) (hne : p.iv ≠ some []) :
    unmarshalDataTransfer (marshalDataTransfer p) = Except.ok p := by
  obtain ⟨contentHash, dataB, chunkIndex, finalChunk, iv, fromWatch⟩ := p
  match iv, hiv, hne with
  | none, _, _ =>
    have e1 : unmarshalDataTransfer
        (marshalDataTransfer ⟨contentHash, dataB, chunkIndex, finalChunk, none, fromWatch⟩) =
        Except.bind (decBytes (some (encBytes dataB))) (fun db =>
          Except.ok ⟨contentHash, db, chunkIndex, finalChunk, none, fromWatch⟩) := rfl
    rw [e1, decBytes_encBytes dataB hd]
    rfl
  | some [], _, hne => exact absurd rfl hne
  | some (b0 :: bs), hiv, _ =>
    have e1 : unmarshalDataTransfer
        (marshalDataTransfer
          ⟨contentHash, dataB, chunkIndex, finalChunk, some (b0 :: bs), fromWatch⟩) =
        Except.bind (decBytes (some (encBytes dataB))) (fun db =>
          Except.bind (decBytes (some (encBytes (some (b0 :: bs))))) (fun ivv =>
            Except.ok ⟨contentHash, db, chunkIndex, finalChunk, ivv, fromWatch⟩)) := rfl
    rw [e1, decBytes_encBytes dataB hd, decBytes_encBytes (some (b0 :: bs)) hiv]
    rfl

theorem parse_handshake_as_dataRequest (hp : HandshakePayload) (t : MessageType) (s : String) :
    parseAsDataRequest (NewMessage t s (marshalHandshake hp)) = Except.ok ⟨"", false⟩ := by
  obtain ⟨nodeId, address, knownPeers, key⟩ := hp
  rfl

/-- C6 counterexample: decoding a handshake-encoded payload against the
`DataRequest` schema succeeds with zero values instead of failing, and the
`omitempty` iv of `data_transfer` breaks the round-trip for an empty
non-nil iv. -/
theorem parse_wrong_type_succeeds :
    parseAsDataRequest (NewMessage MessageType.handshake "node1"
        (marshalHandshake ⟨"node1", "addr1", some ["peer1"], some [1, 2]⟩)) =
      Except.ok ⟨"", false⟩ ∧
    parseAsDataTransfer (NewMessage MessageType.dataTransfer "node1"
        (marshalDataTransfer ⟨"h1", some [5], 0, true, some [], false⟩)) =
      Except.ok ⟨"h1", some [5], 0, true, none, false⟩ ∧
    (⟨"h1", some [5], 0, true, none, false⟩ : DataTransfer) ≠
      ⟨"h1", some [5], 0, true, some [], false⟩ :=
  ⟨rfl, rfl, by decide⟩

/-- C6: for each of the five payload schemas, decoding an encoded message
payload back into the same schema yields the original payload (for Go
byte values, and for `data_transfer` an iv that is not an empty non-nil
slice, which `omitempty` would drop); decoding a payload against a wrong
payload type does not fail: fields absent from the other schema take
their zero values, shown for a handshake payload decoded as a
`DataRequest`. -/
theorem message_payload_roundtrip (hp : HandshakePayload) (dp : DataPayload)
    (rq : DataRequest) (dt : DataTransfer) (dv : DiscoveryPayload)
    (t : MessageType) (sender : String)
    (h1 : bytesValid hp.key) (h2 : bytesValid dp.iv) (h3 : bytesValid dt.data)
    (h4 : bytesValid dt.iv) (h5 : dt.iv ≠ some []) :
    parseAsHandshake (NewMessage t sender (marshalHandshake hp)) = Except.ok hp ∧
    parseAsData (NewMessage t sender (marshalData dp)) = Except.ok dp ∧
    parseAsDataRequest (NewMessage t sender (marshalDataRequest rq)) = Except.ok rq ∧
    parseAsDataTransfer (NewMessage t sender (marshalDataTransfer dt)) = Except.ok dt ∧
    parseAsDiscovery (NewMessage t sender (marshalDiscovery dv)) = Except.ok dv ∧
    parseAsDataRequest (NewMessage t sender (marshalHandshake hp)) = Except.ok ⟨"", false⟩ :=
  ⟨roundtripHandshake hp h1, roundtripData dp h2, roundtripDataRequest rq,
   roundtripDataTransfer dt h3 h4 h5, roundtripDiscovery dv,
   parse_handshake_as_dataRequest hp t sender⟩

/-- Witness for C6 at concrete payloads of each schema. -/
theorem message_payload_roundtrip_witness :
    parseAsHandshake (NewMessage MessageType.data "s"
        (marshalHandshake ⟨"n1", "a1", some ["p1"], some [1]⟩)) =
      Except.ok ⟨"n1", "a1", some ["p1"], some [1]⟩ ∧
    parseAsData (NewMessage MessageType.data "s"
        (marshalData ⟨"h", "f", 10, true, none, true⟩)) =
      Except.ok ⟨"h", "f", 10, true, none, true⟩ ∧
    parseAsDataRequest (NewMessage MessageType.data "s"
        (marshalDataRequest ⟨"h", false⟩)) = Except.ok ⟨"h", false⟩ ∧
    parseAsDataTransfer (NewMessage MessageType.data "s"
        (marshalDataTransfer ⟨"h", some [2], 1, true, none, false⟩)) =
      Except.ok ⟨"h", some [2], 1, true, none, false⟩ ∧
    parseAsDiscovery (NewMessage MessageType.data "s"
        (marshalDiscovery ⟨"n2", "a2"⟩)) = Except.ok ⟨"n2", "a2"⟩ ∧
    parseAsDataRequest (NewMessage MessageType.data "s"
        (marshalHandshake ⟨"n1", "a1", some ["p1"], some [1]⟩)) = Except.ok ⟨"", false⟩ :=
  message_payload_roundtrip ⟨"n1", "a1", some ["p1"], some [1]⟩ ⟨"h", "f", 10, true, none, true⟩
    ⟨"h", false⟩ ⟨"h", some [2], 1, true, none, false⟩ ⟨"n2", "a2"⟩ MessageType.data "s"
    (by simp [bytesValid]) trivial (by simp [bytesValid]) trivial (by simp)

/-- C7: `Peer.Close` is not idempotent: the first Close closes the done
channel and the conn, but a second Close on the same peer runs
`close(p.done)` on an already-closed channel, a runtime panic, instead of
completing without fault. -/
theorem peerClose_second_close_panics :
    peerClose ⟨false, false⟩ = Except.ok ⟨true, true⟩ ∧
    peerClose ⟨true, true⟩ = Except.error GoPanic.closeOfClosedChannel :=
  ⟨rfl, rfl⟩

/-- C9: `Transport.Broadcast` attempts a send to every registered peer —
a failing send does not prevent the attempts to the peers after it — and
always returns nil. -/
theorem broadcast_reaches_all_and_returns_nil (peers : List String)
    (send : String → Option String) :
    (transportBroadcast peers send).2 = none ∧
    (transportBroadcast peers send).1.map Prod.fst = peers ∧
    ∀ p ∈ peers, (p, send p) ∈ (transportBroadcast peers send).1 := by
  refine ⟨rfl, ?_, ?_⟩
  · show (broadcastLoop send peers).map Prod.fst = peers
    induction peers with
    | nil => rfl
    | cons p rest ih => simp only [broadcastLoop, List.map_cons, ih]
  · intro p hp
    show (p, send p) ∈ broadcastLoop send peers
    induction peers with
    | nil => cases hp
    | cons q rest ih =>
      rcases List.mem_cons.mp hp with heq | hmem
      · exact heq ▸ List.mem_cons_self _ _
      · exact List.mem_cons_of_mem _ (ih hmem)

/-- Witness for C9 at a concrete peer list where the middle send fails. -/
theorem broadcast_reaches_all_and_returns_nil_witness :
    (transportBroadcast ["p1", "p2", "p3"]
        (fun p => if p = "p2" then some "send failed" else none)).2 = none ∧
    (transportBroadcast ["p1", "p2", "p3"]
        (fun p => if p = "p2" then some "send failed" else none)).1.map Prod.fst =
      ["p1", "p2", "p3"] ∧
    ∀ p ∈ ["p1", "p2", "p3"],
      (p, if p = "p2" then some "send failed" else none) ∈
        (transportBroadcast ["p1", "p2", "p3"]
          (fun p => if p = "p2" then some "send failed" else none)).1 :=
  broadcast_reaches_all_and_returns_nil ["p1", "p2", "p3"]
    (fun p => if p = "p2" then some "send failed" else none)

/-- C2 counterexample: a joiner that has already adopted a key from one
handshake adopts a different key from the next handshake — the stored
networkKey is overwritten, not left unchanged. -/
theorem networkKey_overwritten_by_later_handshake :
    (handleHandshakeState ⟨false, [0], false, []⟩ ⟨"A", "a1", none, some [1]⟩).1.networkKey =
      [1] ∧
    (handleHandshakeState ⟨false, [0], false, []⟩ ⟨"A", "a1", none, some [1]⟩).2 = true ∧
    (handleHandshakeState
        (handleHandshakeState ⟨false, [0], false, []⟩ ⟨"A", "a1", none, some [1]⟩).1
        ⟨"B", "a2", none, some [2]⟩).1.networkKey = [2] := by decide

/-- C2 amended: a joiner adopts the key of every handshake whose key
field is non-nil — the first adoption fires the key-ready signal, later
adoptions do not fire it again, but each later handshake key overwrites
the stored networkKey rather than being ignored. -/
theorem handshake_key_adoption (n : HsNodeState) (p1 p2 : HandshakePayload) (k1 k2 : List Nat)
    (hf : n.isFirstNode = false) (hr : n.keyReadyClosed = false)
    (hk1 : p1.key = some k1) (hk2 : p2.key = some k2) :
    (handleHandshakeState n p1).1.networkKey = k1 ∧
    (handleHandshakeState n p1).2 = true ∧
    (handleHandshakeState n p1).1.keyReadyClosed = true ∧
    (handleHandshakeState (handleHandshakeState n p1).1 p2).1.networkKey = k2 ∧
    (handleHandshakeState (handleHandshakeState n p1).1 p2).2 = false := by
  simp [handleHandshakeState, hf, hr, hk1, hk2]

/-- Witness for the amended C2 at a concrete joiner and two handshakes. -/
theorem handshake_key_adoption_witness :
    (handleHandshakeState ⟨false, [0], false, []⟩ ⟨"A", "a1", none, some [1]⟩).1.networkKey =
      [1] ∧
    (handleHandshakeState ⟨false, [0], false, []⟩ ⟨"A", "a1", none, some [1]⟩).2 = true ∧
    (handleHandshakeState ⟨false, [0], false, []⟩
        ⟨"A", "a1", none, some [1]⟩).1.keyReadyClosed = true ∧
    (handleHandshakeState
        (handleHandshakeState ⟨false, [0], false, []⟩ ⟨"A", "a1", none, some [1]⟩).1
        ⟨"B", "a2", none, some [2]⟩).1.networkKey = [2] ∧
    (handleHandshakeState
        (handleHandshakeState ⟨false, [0], false, []⟩ ⟨"A", "a1", none, some [1]⟩).1
        ⟨"B", "a2", none, some [2]⟩).2 = false :=
  handshake_key_adoption ⟨false, [0], false, []⟩ ⟨"A", "a1", none, some [1]⟩
    ⟨"B", "a2", none, some [2]⟩ [1] [2] rfl rfl rfl rfl

theorem serveChunks_exact_one_chunk (hash : String) (w : Bool) (data : List Nat)
    (hlen : data.length = MB) :
    serveChunks hash w data 0 = [⟨hash, some data, 0, false, none, w⟩] := by
  have hm : MB = 1048576 := rfl
  have hne : data ≠ [] := by
    intro hc
    rw [hc] at hlen
    simp at hlen
    omega
  have h1 : data.take MB = data := List.take_of_length_le (by omega)
  have h2 : data.drop MB = [] := List.drop_eq_nil_of_le (by omega)
  have h3 : decide (min data.length MB < MB) = false := by
    rw [hlen, Nat.min_self]
    simp
  rw [serveChunks, if_neg hne, h1, h2, h3, serveChunks]
  simp

/-- C1: for a stored object whose size is an exact positive multiple of
1 MiB (here exactly one chunk), the handler's chunk loop reads a full
buffer, emits that chunk with `finalChunk = false`, then breaks on the
`(0, io.EOF)` read — no sent message carries `finalChunk = true`, against
the required exactly-one guarantee. -/
theorem dataRequest_exact_multiple_no_final_chunk :
    handleDataRequest [("h", List.replicate MB 7)] ⟨"h", true⟩ =
      Except.ok [⟨"h", some (List.replicate MB 7), 0, false, none, true⟩] ∧
    (serveChunks "h" true (List.replicate MB 7) 0).countP (fun t => t.finalChunk) = 0 := by
  have hrep : serveChunks "h" true (List.replicate MB 7) 0 =
      [⟨"h", some (List.replicate MB 7), 0, false, none, true⟩] :=
    serveChunks_exact_one_chunk "h" true (List.replicate MB 7) (List.length_replicate MB 7)
  constructor
  · have hl : lookupA [("h", List.replicate MB 7)] "h" = some (List.replicate MB 7) := by
      simp [lookupA]
    simp only [handleDataRequest, hl, hrep]
  · rw [hrep]
    rfl

theorem finalizeWatch_spec (H : List Nat → String) (n : NodeSt) (tkey expected : String)
    (st : TransferSt) (hst : lookupA n.transfers tkey = some st) :
    (finalizeWatchTransfer H n tkey expected).2.tempFiles = eraseA n.tempFiles st.tempId ∧
    ((finalizeWatchTransfer H n tkey expected).1 =
      if H ((lookupA n.tempFiles st.tempId).getD []) ≠ expected then some XferErr.hashMismatch
      else none) ∧
    ((finalizeWatchTransfer H n tkey expected).2.storeObjs =
      if H ((lookupA n.tempFiles st.tempId).getD []) ≠ expected then n.storeObjs
      else insertA n.storeObjs expected ((lookupA n.tempFiles st.tempId).getD [])) := by
  simp only [finalizeWatchTransfer, hst]
  by_cases hh : H ((lookupA n.tempFiles st.tempId).getD []) ≠ expected
  · simp [hh]
  · simp [hh]

/-- C4: when a data_transfer with `finalChunk = true` is processed for a
watch-origin transfer, the node rehashes the reassembled temp file: on a
hash mismatch the handler fails with `hashMismatch` and the object is not
committed to the store, on a match it is committed, and the temp file is
unlinked in both cases. -/
theorem watch_transfer_hash_verified (H : List Nat → String)
    (ks : List Nat → List Nat → Nat → Nat) (n : NodeSt) (peerId : String) (t : DataTransfer)
    (st : TransferSt) (c0 : List Nat)
    (hfin : t.finalChunk = true) (hidx : 0 ≤ t.chunkIndex)
    (hst : lookupA n.transfers (peerId ++ "-" ++ t.contentHash) = some st)
    (hwatch : st.fromWatch = true)
    (htemp : lookupA n.tempFiles st.tempId = some c0)
    (hnot : lookupA n.storeObjs t.contentHash = none) :
    lookupA (handleDataTransfer H ks n peerId t).2.tempFiles st.tempId = none ∧
    (H (writeAt c0 (t.chunkIndex.toNat * MB) (t.data.getD [])) ≠ t.contentHash →
      (handleDataTransfer H ks n peerId t).1 = some XferErr.hashMismatch ∧
      lookupA (handleDataTransfer H ks n peerId t).2.storeObjs t.contentHash = none) ∧
    (H (writeAt c0 (t.chunkIndex.toNat * MB) (t.data.getD [])) = t.contentHash →
      (handleDataTransfer H ks n peerId t).1 = none ∧
      lookupA (handleDataTransfer H ks n peerId t).2.storeObjs t.contentHash =
        some (writeAt c0 (t.chunkIndex.toNat * MB) (t.data.getD []))) := by
  have hneg : ¬ t.chunkIndex < 0 := not_lt.mpr hidx
  have hmain : handleDataTransfer H ks n peerId t =
      finalizeWatchTransfer H
        { n with
          tempFiles := insertA n.tempFiles st.tempId
            (writeAt c0 (t.chunkIndex.toNat * MB) (t.data.getD [])),
          transfers := insertA n.transfers (peerId ++ "-" ++ t.contentHash)
            { st with chunks := t.chunkIndex :: st.chunks, received := st.received + 1 } }
        (peerId ++ "-" ++ t.contentHash) t.contentHash := by
    simp only [handleDataTransfer, hst, hneg, htemp, hfin, hwatch, Option.getD_some,
      if_false, if_true, ite_false, ite_true]
  have hspec := finalizeWatch_spec H
    { n with
      tempFiles := insertA n.tempFiles st.tempId
        (writeAt c0 (t.chunkIndex.toNat * MB) (t.data.getD [])),
      transfers := insertA n.transfers (peerId ++ "-" ++ t.contentHash)
        { st with chunks := t.chunkIndex :: st.chunks, received := st.received + 1 } }
    (peerId ++ "-" ++ t.contentHash) t.contentHash
    { st with chunks := t.chunkIndex :: st.chunks, received := st.received + 1 }
    (lookupA_insertA_self _ _ _)
  obtain ⟨htf, herr, hso⟩ := hspec
  simp only [lookupA_insertA_self, Option.getD_some] at htf herr hso
  refine ⟨?_, ?_, ?_⟩
  · rw [hmain, htf]
    exact lookupA_eraseA_self _ _
  · intro hmis
    rw [hmain, herr, hso]
    rw [if_pos hmis, if_pos hmis]
    exact ⟨rfl, hnot⟩
  · intro hmatch
    rw [hmain, herr, hso]
    rw [if_neg (by simpa using hmatch), if_neg (by simpa using hmatch)]
    exact ⟨rfl, lookupA_insertA_self _ _ _⟩

/-- Witness for C4 at a concrete transfer where the recomputed hash
matches. -/
theorem watch_transfer_hash_verified_witness :
    lookupA (handleDataTransfer (fun _ => "h") (fun _ _ _ => 0)
        ⟨[("p-h", ⟨0, [], 0, true⟩)], [(0, [9])], [], [], 1, []⟩ "p"
        ⟨"h", some [5], 0, true, none, true⟩).2.tempFiles 0 = none ∧
    ((fun _ : List Nat => "h") (writeAt [9] ((0 : Int).toNat * MB) ((some [5]).getD [])) ≠
        "h" →
      (handleDataTransfer (fun _ => "h") (fun _ _ _ => 0)
          ⟨[("p-h", ⟨0, [], 0, true⟩)], [(0, [9])], [], [], 1, []⟩ "p"
          ⟨"h", some [5], 0, true, none, true⟩).1 = some XferErr.hashMismatch ∧
      lookupA (handleDataTransfer (fun _ => "h") (fun _ _ _ => 0)
          ⟨[("p-h", ⟨0, [], 0, true⟩)], [(0, [9])], [], [], 1, []⟩ "p"
          ⟨"h", some [5], 0, true, none, true⟩).2.storeObjs "h" = none) ∧
    ((fun _ : List Nat => "h") (writeAt [9] ((0 : Int).toNat * MB) ((some [5]).getD [])) =
        "h" →
      (handleDataTransfer (fun _ => "h") (fun _ _ _ => 0)
          ⟨[("p-h", ⟨0, [], 0, true⟩)], [(0, [9])], [], [], 1, []⟩ "p"
          ⟨"h", some [5], 0, true, none, true⟩).1 = none ∧
      lookupA (handleDataTransfer (fun _ => "h") (fun _ _ _ => 0)
          ⟨[("p-h", ⟨0, [], 0, true⟩)], [(0, [9])], [], [], 1, []⟩ "p"
          ⟨"h", some [5], 0, true, none, true⟩).2.storeObjs "h" =
        some (writeAt [9] ((0 : Int).toNat * MB) ((some [5]).getD []))) :=
  watch_transfer_hash_verified (fun _ => "h") (fun _ _ _ => 0)
    ⟨[("p-h", ⟨0, [], 0, true⟩)], [(0, [9])], [], [], 1, []⟩ "p"
    ⟨"h", some [5], 0, true, none, true⟩ ⟨0, [], 0, true⟩ [9]
    rfl (by decide) (by decide) rfl (by decide) rfl

/-- Witness for C10 at a concrete short hash and a concrete long hash. -/
theorem store_ops_panic_on_short_hash_witness :
    (storeStore ⟨[['s']], []⟩ ['a', 'b'] [7] = Except.error GoPanic.sliceOutOfRange ∧
      storeLoad ⟨[['s']], []⟩ ['a', 'b'] = Except.error GoPanic.sliceOutOfRange ∧
      storeExists ⟨[['s']], []⟩ ['a', 'b'] = Except.error GoPanic.sliceOutOfRange ∧
      storeDelete ⟨[['s']], []⟩ ['a', 'b'] = Except.error GoPanic.sliceOutOfRange) ∧
    (∃ p, hashToPath ⟨[['s']], []⟩ ['a', 'b', 'c', 'd', 'e'] = Except.ok p) :=
  ⟨(store_ops_panic_on_short_hash ⟨[['s']], []⟩ ['a', 'b'] [7]).1 (by decide),
    (store_ops_panic_on_short_hash ⟨[['s']], []⟩ ['a', 'b', 'c', 'd', 'e'] [7]).2 (by decide)⟩

end P2P
